import Mathlib

/-!
Verification development for the instructor-assistant application
(`final_app.py`, `prompts.py`).

Python strings are modelled as `List Char` (a Python `str` is a sequence of
code points, so slicing `s[:n]` is `List.take n`, `len` is `List.length`,
concatenation is `++`).  The `json.loads` library call is modelled by an
executable JSON parser over the fragment of JSON values that the
application exchanges (null, booleans, non-negative integer numerals,
escape-free strings, arrays, objects); the OpenAI completion call
(`call_llm`) and its possible failures are modelled by an explicit oracle
parameter `llm : List Char → Except (List Char) (List Char)`, an
uncaught Python exception being `Except.error`.
-/

set_option maxRecDepth 8192

/-- The characters removed by Python `str.strip()` (the whitespace
characters that occur in this pipeline). -/
def isSpaceChar (c : Char) : Bool :=
  c = ' ' || c = '\n' || c = '\t' || c = '\r'

/-- Python `str.lstrip()`. -/
def lstrip (s : List Char) : List Char := s.dropWhile isSpaceChar

/-- Python `str.rstrip()`. -/
def rstrip (s : List Char) : List Char :=
  (s.reverse.dropWhile isSpaceChar).reverse

/-- Python `str.strip()`. -/
def pyStrip (s : List Char) : List Char := rstrip (lstrip s)

/-- The backtick character. -/
def backtick : Char := Char.ofNat 96

/-- The 7-character opening fence marker removed at
`final_app.py` lines 47-48 and 92-93: three backticks followed by `json`. -/
def fenceJsonChars : List Char := [backtick, backtick, backtick, 'j', 's', 'o', 'n']

/-- The 3-character closing fence marker removed at
`final_app.py` lines 49-50 and 94-95: three backticks. -/
def fenceChars : List Char := [backtick, backtick, backtick]

/-- The response-cleaning step shared by `process_feedback`
(`final_app.py` lines 46-51) and `analyze_transcript` (lines 91-96):
strip, drop a leading 7-character tagged opening fence if present,
drop a trailing 3-character closing fence if present, strip again. -/
def cleanResponse (raw : List Char) : List Char :=
  let c1 := pyStrip raw
  let c2 := if fenceJsonChars.isPrefixOf c1 then c1.drop 7 else c1
  let c3 := if fenceChars.isSuffixOf c2 then c2.take (c2.length - 3) else c2
  pyStrip c3

/-- The truncation marker appended at `final_app.py` line 82. -/
def truncMarker : List Char := " ...[truncated]".toList

/-- The truncation policy of `fetch_youtube_transcript`
(`final_app.py` lines 81-82): texts within the budget pass unchanged,
longer texts are cut to the first `maxChars` characters and the fixed
marker is appended. -/
def truncateText (t : List Char) (maxChars : Nat) : List Char :=
  if t.length ≤ maxChars then t else t.take maxChars ++ truncMarker

/-- The fragment of JSON values that the application exchanges with the
model, as produced by the `json.loads` library call: null, booleans,
non-negative integer numerals, strings, arrays and objects (an object
keeps its fields as a list of key/value pairs in source order). -/
inductive Json where
  | null : Json
  | bool : Bool → Json
  | num : Nat → Json
  | str : List Char → Json
  | arr : List Json → Json
  | obj : List (List Char × Json) → Json

/-- Decimal digit character for a value below ten. -/
def digitChar (n : Nat) : Char :=
  match n with
  | 0 => '0' | 1 => '1' | 2 => '2' | 3 => '3' | 4 => '4'
  | 5 => '5' | 6 => '6' | 7 => '7' | 8 => '8' | _ => '9'

def natToCharsAux : Nat → Nat → List Char
  | 0, _ => []
  | f + 1, n =>
    if n < 10 then [digitChar n]
    else natToCharsAux f (n / 10) ++ [digitChar (n % 10)]

/-- Decimal numeral of a natural number. -/
def natToChars (n : Nat) : List Char := natToCharsAux (n + 1) n

/-- Value of a decimal digit character. -/
def digitVal (c : Char) : Nat := c.toNat - 48

/-- Value of a list of decimal digit characters. -/
def digitsVal (ds : List Char) : Nat :=
  ds.foldl (fun a c => 10 * a + digitVal c) 0

/-- Body of a JSON string literal after the opening quote: the characters
up to the closing quote.  Escape sequences are outside the modelled
fragment, so a backslash makes the parse fail. -/
def parseStringBody : List Char → Option (List Char × List Char)
  | [] => none
  | c :: rest =>
    if c = '"' then some ([], rest)
    else if c = '\\' then none
    else match parseStringBody rest with
      | some (s, r) => some (c :: s, r)
      | none => none

/-- A JSON numeral: a non-empty run of decimal digits. -/
def parseNumber (cs : List Char) : Option (Json × List Char) :=
  let ds := cs.takeWhile Char.isDigit
  if ds.isEmpty then none
  else some (.num (digitsVal ds), cs.dropWhile Char.isDigit)

/-- Expect the literal characters `lit` at the head of the input and
return the remainder. -/
def expectChars : List Char → List Char → Option (List Char)
  | [], cs => some cs
  | _ :: _, [] => none
  | l :: ls, c :: cs => if c = l then expectChars ls cs else none

mutual

/-- Fuel-indexed recursive-descent parser for the modelled JSON
fragment; models `json.loads` (`final_app.py` lines 53 and 98) on the
whitespace-free canonical serializations produced by `serializeVal`. -/
def parseVal : Nat → List Char → Option (Json × List Char)
  | 0, _ => none
  | f + 1, cs =>
    match cs with
    | [] => none
    | c :: rest =>
      if c = 'n' then
        match expectChars ['u', 'l', 'l'] rest with
        | some r => some (.null, r)
        | none => none
      else if c = 't' then
        match expectChars ['r', 'u', 'e'] rest with
        | some r => some (.bool true, r)
        | none => none
      else if c = 'f' then
        match expectChars ['a', 'l', 's', 'e'] rest with
        | some r => some (.bool false, r)
        | none => none
      else if c = '"' then
        match parseStringBody rest with
        | some (s, r) => some (.str s, r)
        | none => none
      else if c = '[' then
        if rest.head? = some ']' then some (.arr [], rest.tail)
        else match parseElems f rest with
          | some (es, r) => some (.arr es, r)
          | none => none
      else if c = '{' then
        if rest.head? = some '}' then some (.obj [], rest.tail)
        else match parseFields f rest with
          | some (fs, r) => some (.obj fs, r)
          | none => none
      else if c.isDigit then parseNumber (c :: rest)
      else none

/-- One or more comma-separated array elements followed by `]`. -/
def parseElems : Nat → List Char → Option (List Json × List Char)
  | 0, _ => none
  | f + 1, cs =>
    (parseVal f cs).bind fun jr =>
      match jr.2 with
      | ',' :: more => (parseElems f more).map fun er => (jr.1 :: er.1, er.2)
      | ']' :: more => some ([jr.1], more)
      | _ => none

/-- One or more comma-separated `"key":value` object fields followed
by `}`. -/
def parseFields : Nat → List Char → Option (List (List Char × Json) × List Char)
  | 0, _ => none
  | f + 1, cs =>
    match cs with
    | '"' :: afterQuote =>
      (parseStringBody afterQuote).bind fun kr =>
        match kr.2 with
        | ':' :: afterColon =>
          (parseVal f afterColon).bind fun vr =>
            match vr.2 with
            | ',' :: more =>
              (parseFields f more).map fun fr => ((kr.1, vr.1) :: fr.1, fr.2)
            | '}' :: more => some ([(kr.1, vr.1)], more)
            | _ => none
        | _ => none
    | _ => none

end

/-- `json.loads` on a whole (already stripped) text: the parse must
consume the entire input, otherwise the call raises and we return
`none`.  One unit of fuel is spent only after consuming at least one
input character, so `length + 1` units always suffice. -/
def parseJson (cs : List Char) : Option Json :=
  match parseVal (cs.length + 1) cs with
  | some (j, []) => some j
  | _ => none

/-- The serialized text of `null`. -/
def litNull : List Char := ['n', 'u', 'l', 'l']

/-- The serialized text of `true`. -/
def litTrue : List Char := ['t', 'r', 'u', 'e']

/-- The serialized text of `false`. -/
def litFalse : List Char := ['f', 'a', 'l', 's', 'e']

mutual

/-- Canonical (whitespace-free) serialization of a JSON value. -/
def serializeVal : Json → List Char
  | .null => litNull
  | .bool true => litTrue
  | .bool false => litFalse
  | .num n => natToChars n
  | .str s => '"' :: (s ++ ['"'])
  | .arr [] => ['[', ']']
  | .arr (e :: es) => '[' :: (serializeElems e es ++ [']'])
  | .obj [] => ['{', '}']
  | .obj (f :: fs) => '{' :: (serializeFields f fs ++ ['}'])
termination_by j => sizeOf j
decreasing_by all_goals (simp; try omega)

/-- Comma-separated serialization of a non-empty element list. -/
def serializeElems : Json → List Json → List Char
  | e, [] => serializeVal e
  | e, e2 :: es => serializeVal e ++ ',' :: serializeElems e2 es
termination_by e es => sizeOf e + sizeOf es
decreasing_by all_goals (simp; try omega)

/-- Comma-separated serialization of a non-empty field list. -/
def serializeFields : (List Char × Json) → List (List Char × Json) → List Char
  | (k, v), [] => '"' :: (k ++ '"' :: ':' :: serializeVal v)
  | (k, v), f2 :: fs =>
    ('"' :: (k ++ '"' :: ':' :: serializeVal v)) ++ ',' :: serializeFields f2 fs
termination_by kv fs => sizeOf kv + sizeOf fs
decreasing_by all_goals (simp; try omega)

end

/-- A string literal of the modelled fragment: no quote, no backslash. -/
def okStrB (s : List Char) : Bool := s.all (fun c => c ≠ '"' && c ≠ '\\')

mutual

/-- Well-formedness of a JSON value within the modelled fragment: every
string literal and key is escape-free. -/
def wfVal : Json → Bool
  | .null => true
  | .bool _ => true
  | .num _ => true
  | .str s => okStrB s
  | .arr es => wfElems es
  | .obj fs => wfFields fs
termination_by j => sizeOf j
decreasing_by all_goals (simp; try omega)

def wfElems : List Json → Bool
  | [] => true
  | e :: es => wfVal e && wfElems es
termination_by es => sizeOf es
decreasing_by all_goals (simp; try omega)

def wfFields : List (List Char × Json) → Bool
  | [] => true
  | (k, v) :: fs => okStrB k && wfVal v && wfFields fs
termination_by fs => sizeOf fs
decreasing_by all_goals (simp; try omega)

end

theorem digitVal_digitChar (n : Nat) (h : n < 10) : digitVal (digitChar n) = n := by
  interval_cases n <;> decide

theorem isDigit_digitChar (n : Nat) : (digitChar n).isDigit = true := by
  unfold digitChar
  split <;> decide

theorem mem_natToCharsAux_isDigit (f n : Nat) :
    ∀ c ∈ natToCharsAux f n, c.isDigit = true := by
  induction f generalizing n with
  | zero => intro c hc; simp [natToCharsAux] at hc
  | succ f ih =>
    intro c hc
    unfold natToCharsAux at hc
    by_cases h : n < 10
    · simp [h] at hc
      subst hc
      exact isDigit_digitChar n
    · simp [h] at hc
      rcases hc with hc | hc
      · exact ih (n / 10) c hc
      · subst hc
        exact isDigit_digitChar (n % 10)

theorem natToCharsAux_ne_nil (f n : Nat) (h : n < f) : natToCharsAux f n ≠ [] := by
  cases f with
  | zero => omega
  | succ f =>
    unfold natToCharsAux
    by_cases h10 : n < 10 <;> simp [h10]

theorem natToChars_ne_nil (n : Nat) : natToChars n ≠ [] :=
  natToCharsAux_ne_nil (n + 1) n (Nat.lt_succ_self n)

theorem mem_natToChars_isDigit (n : Nat) : ∀ c ∈ natToChars n, c.isDigit = true :=
  mem_natToCharsAux_isDigit (n + 1) n

theorem natToCharsAux_fuel (n : Nat) : ∀ f f', n < f → n < f' →
    natToCharsAux f n = natToCharsAux f' n := by
  induction n using Nat.strong_induction_on with
  | _ n ih =>
    intro f f' hf hf'
    cases f with
    | zero => omega
    | succ f =>
      cases f' with
      | zero => omega
      | succ f' =>
        unfold natToCharsAux
        by_cases h10 : n < 10
        · simp [h10]
        · simp only [h10, if_false]
          have hlt : n / 10 < n := Nat.div_lt_self (by omega) (by omega)
          rw [ih (n / 10) hlt f f' (by omega) (by omega)]

theorem digitsVal_append_single (ds : List Char) (c : Char) :
    digitsVal (ds ++ [c]) = 10 * digitsVal ds + digitVal c := by
  simp [digitsVal, List.foldl_append]

theorem digitsVal_natToChars (n : Nat) : digitsVal (natToChars n) = n := by
  induction n using Nat.strong_induction_on with
  | _ n ih =>
    unfold natToChars natToCharsAux
    by_cases h10 : n < 10
    · simp [h10, digitsVal, digitVal_digitChar n h10]
    · simp only [h10, if_false]
      have hlt : n / 10 < n := Nat.div_lt_self (by omega) (by omega)
      rw [natToCharsAux_fuel (n / 10) n (n / 10 + 1) (by omega) (by omega)]
      rw [digitsVal_append_single]
      have hih : digitsVal (natToCharsAux (n / 10 + 1) (n / 10)) = n / 10 := ih (n / 10) hlt
      rw [hih, digitVal_digitChar (n % 10) (by omega)]
      omega

theorem span_append (p : Char → Bool) (ds rest : List Char)
    (h1 : ∀ c ∈ ds, p c = true) (h2 : ∀ c, rest.head? = some c → p c = false) :
    (ds ++ rest).takeWhile p = ds ∧ (ds ++ rest).dropWhile p = rest := by
  induction ds with
  | nil =>
    simp only [List.nil_append]
    cases rest with
    | nil => simp
    | cons c cs =>
      have := h2 c rfl
      simp [List.takeWhile, List.dropWhile, this]
  | cons d ds ih =>
    have hd : p d = true := h1 d (List.mem_cons_self d ds)
    have := ih (fun c hc => h1 c (List.mem_cons_of_mem d hc))
    simp [List.takeWhile, List.dropWhile, hd, this]

theorem parseNumber_round (n : Nat) (rest : List Char)
    (h : ∀ c, rest.head? = some c → c.isDigit = false) :
    parseNumber (natToChars n ++ rest) = some (.num n, rest) := by
  obtain ⟨ht, hd⟩ := span_append Char.isDigit (natToChars n) rest (mem_natToChars_isDigit n) h
  simp [parseNumber, ht, hd, List.isEmpty_iff, natToChars_ne_nil n, digitsVal_natToChars n]

theorem parseStringBody_round (s rest : List Char) (h : okStrB s = true) :
    parseStringBody (s ++ '"' :: rest) = some (s, rest) := by
  induction s with
  | nil => simp [parseStringBody]
  | cons c cs ih =>
    simp only [okStrB, List.all_cons, Bool.and_eq_true, decide_eq_true_eq] at h
    obtain ⟨⟨hq, hb⟩, hrest⟩ := h
    have := ih (by simpa [okStrB] using hrest)
    simp [parseStringBody, hq, hb, this]

theorem isDigit_ne_delims (c : Char) (h : c.isDigit = true) :
    c ≠ ']' ∧ c ≠ '}' ∧ c ≠ ',' := by
  refine ⟨?_, ?_, ?_⟩ <;> (intro he; subst he; simp at h)

theorem serializeVal_head (j : Json) : ∃ c t, serializeVal j = c :: t ∧
    (c = 'n' ∨ c = 't' ∨ c = 'f' ∨ c = '"' ∨ c = '[' ∨ c = '{' ∨ c.isDigit = true) := by
  cases j with
  | null => exact ⟨'n', ['u', 'l', 'l'], by simp [serializeVal, litNull], by simp⟩
  | bool b => cases b with
    | true => exact ⟨'t', ['r', 'u', 'e'], by simp [serializeVal, litTrue], by simp⟩
    | false =>
      exact ⟨'f', ['a', 'l', 's', 'e'], by simp [serializeVal, litFalse], by simp⟩
  | num n =>
    obtain ⟨c, t, hct⟩ : ∃ c t, natToChars n = c :: t := by
      cases hn : natToChars n with
      | nil => exact absurd hn (natToChars_ne_nil n)
      | cons c t => exact ⟨c, t, rfl⟩
    have hdig : c.isDigit = true := mem_natToChars_isDigit n c (by simp [hct])
    exact ⟨c, t, by simp [serializeVal, hct], by simp [hdig]⟩
  | str s => exact ⟨'"', s ++ ['"'], by simp [serializeVal], by simp⟩
  | arr es => cases es with
    | nil => exact ⟨'[', [']'], by simp [serializeVal], by simp⟩
    | cons e es =>
      exact ⟨'[', serializeElems e es ++ [']'], by simp [serializeVal], by simp⟩
  | obj fs => cases fs with
    | nil => exact ⟨'{', ['}'], by simp [serializeVal], by simp⟩
    | cons f fs =>
      exact ⟨'{', serializeFields f fs ++ ['}'], by simp [serializeVal], by simp⟩

theorem serializeVal_ne_nil (j : Json) : serializeVal j ≠ [] := by
  obtain ⟨c, t, hct, _⟩ := serializeVal_head j
  simp [hct]

theorem serializeVal_length_pos (j : Json) : 1 ≤ (serializeVal j).length := by
  obtain ⟨c, t, hct, _⟩ := serializeVal_head j
  simp [hct]

theorem serializeElems_eq_append (e : Json) (es : List Json) :
    ∃ t, serializeElems e es = serializeVal e ++ t := by
  cases es with
  | nil => exact ⟨[], by simp [serializeElems]⟩
  | cons e2 es => exact ⟨',' :: serializeElems e2 es, by simp [serializeElems]⟩

theorem serializeFields_head (kv : List Char × Json) (fs : List (List Char × Json)) :
    ∃ t, serializeFields kv fs = '"' :: t := by
  obtain ⟨k, v⟩ := kv
  cases fs with
  | nil => exact ⟨k ++ '"' :: ':' :: serializeVal v, by simp [serializeFields]⟩
  | cons f2 fs =>
    exact ⟨k ++ '"' :: ':' :: (serializeVal v ++ ',' :: serializeFields f2 fs),
      by simp [serializeFields]⟩

theorem headNotDigit_cons (d : Char) (rest : List Char) (h : d.isDigit = false) :
    ∀ c, (d :: rest).head? = some c → c.isDigit = false := by
  intro c hc
  simp only [List.head?_cons, Option.some.injEq] at hc
  subst hc
  exact h

theorem serHead_ne_close (c : Char)
    (h : c = 'n' ∨ c = 't' ∨ c = 'f' ∨ c = '"' ∨ c = '[' ∨ c = '{' ∨ c.isDigit = true) :
    ¬ c = ']' ∧ ¬ c = '}' := by
  rcases h with h | h | h | h | h | h | h
  · subst h; exact ⟨by decide, by decide⟩
  · subst h; exact ⟨by decide, by decide⟩
  · subst h; exact ⟨by decide, by decide⟩
  · subst h; exact ⟨by decide, by decide⟩
  · subst h; exact ⟨by decide, by decide⟩
  · subst h; exact ⟨by decide, by decide⟩
  · exact ⟨(isDigit_ne_delims c h).1, (isDigit_ne_delims c h).2.1⟩

theorem parse_serialize_round (f : Nat) :
    (∀ j rest, wfVal j = true → (serializeVal j).length ≤ f →
      (∀ c, rest.head? = some c → c.isDigit = false) →
      parseVal f (serializeVal j ++ rest) = some (j, rest)) ∧
    (∀ e es rest, wfVal e = true → wfElems es = true →
      (serializeElems e es).length < f →
      parseElems f (serializeElems e es ++ ']' :: rest) = some (e :: es, rest)) ∧
    (∀ k v fs rest, okStrB k = true → wfVal v = true → wfFields fs = true →
      (serializeFields (k, v) fs).length < f →
      parseFields f (serializeFields (k, v) fs ++ '}' :: rest) = some ((k, v) :: fs, rest)) := by
  induction f with
  | zero =>
    refine ⟨?_, ?_, ?_⟩
    · intro j rest _ hlen _
      have := serializeVal_length_pos j
      omega
    · intro e es rest _ _ hlen
      omega
    · intro k v fs rest _ _ _ hlen
      omega
  | succ f ih =>
    obtain ⟨ihV, ihE, ihF⟩ := ih
    refine ⟨?_, ?_, ?_⟩
    · intro j rest hwf hlen hrest
      cases j with
      | null => simp [serializeVal, litNull, parseVal, expectChars]
      | bool b =>
        cases b with
        | true => simp [serializeVal, litTrue, parseVal, expectChars]
        | false => simp [serializeVal, litFalse, parseVal, expectChars]
      | num n =>
        obtain ⟨c, t, hct⟩ : ∃ c t, natToChars n = c :: t := by
          cases hn : natToChars n with
          | nil => exact absurd hn (natToChars_ne_nil n)
          | cons c t => exact ⟨c, t, rfl⟩
        have hdig : c.isDigit = true := mem_natToChars_isDigit n c (by simp [hct])
        have h1 : ¬ c = 'n' := fun he => absurd (he ▸ hdig) (by decide)
        have h2 : ¬ c = 't' := fun he => absurd (he ▸ hdig) (by decide)
        have h3 : ¬ c = 'f' := fun he => absurd (he ▸ hdig) (by decide)
        have h4 : ¬ c = '"' := fun he => absurd (he ▸ hdig) (by decide)
        have h5 : ¬ c = '[' := fun he => absurd (he ▸ hdig) (by decide)
        have h6 : ¬ c = '{' := fun he => absurd (he ▸ hdig) (by decide)
        have hnum := parseNumber_round n rest hrest
        simp only [serializeVal]
        rw [hct] at hnum ⊢
        simp only [List.cons_append] at hnum
        simp only [List.cons_append, parseVal]
        simp [h1, h2, h3, h4, h5, h6, hdig, hnum]
      | str s =>
        have hs : okStrB s = true := by simpa [wfVal] using hwf
        have hsb := parseStringBody_round s rest hs
        simp only [serializeVal]
        simp [parseVal, List.append_assoc, List.cons_append, List.singleton_append, hsb]
      | arr es =>
        cases es with
        | nil => simp [serializeVal, parseVal]
        | cons e es =>
          obtain ⟨hwfe, hwfes⟩ : wfVal e = true ∧ wfElems es = true := by
            simpa [wfVal, wfElems, Bool.and_eq_true] using hwf
          have hlen2 : (serializeElems e es).length < f := by
            simp only [serializeVal] at hlen
            simp [List.length_append] at hlen
            omega
          have ihe := ihE e es rest hwfe hwfes hlen2
          obtain ⟨t0, hse⟩ := serializeElems_eq_append e es
          obtain ⟨c, t2, hc, hcp⟩ := serializeVal_head e
          have hcne : ¬ c = ']' := (serHead_ne_close c hcp).1
          have hhead : (serializeElems e es ++ ']' :: rest).head? = some c := by
            rw [hse, hc]
            simp
          simp only [serializeVal, List.cons_append, List.append_assoc,
            List.singleton_append, List.nil_append, parseVal]
          simp [hhead, hcne, ihe]
      | obj fs =>
        cases fs with
        | nil => simp [serializeVal, parseVal]
        | cons kv fs =>
          obtain ⟨k, v⟩ := kv
          obtain ⟨hk, hv, hfs⟩ :
              okStrB k = true ∧ wfVal v = true ∧ wfFields fs = true := by
            simpa [wfVal, wfFields, Bool.and_eq_true, and_assoc] using hwf
          have hlen2 : (serializeFields (k, v) fs).length < f := by
            simp only [serializeVal] at hlen
            simp [List.length_append] at hlen
            omega
          have ihf := ihF k v fs rest hk hv hfs hlen2
          obtain ⟨t0, hsf⟩ := serializeFields_head (k, v) fs
          have hhead : (serializeFields (k, v) fs ++ '}' :: rest).head? = some '"' := by
            rw [hsf]
            simp
          simp only [serializeVal, List.cons_append, List.append_assoc,
            List.singleton_append, List.nil_append, parseVal]
          simp [hhead, ihf]
    · intro e es rest hwfe hwfes hlen
      cases es with
      | nil =>
        have hlenV : (serializeVal e).length ≤ f := by
          simp only [serializeElems] at hlen
          omega
        have ihv := ihV e (']' :: rest) hwfe hlenV (headNotDigit_cons ']' rest (by decide))
        simp only [serializeElems, parseElems]
        rw [ihv]
        simp
      | cons e2 es =>
        have hpos := serializeVal_length_pos e
        have hlen' : (serializeVal e).length ≤ f ∧ (serializeElems e2 es).length < f := by
          simp only [serializeElems] at hlen
          simp [List.length_append] at hlen
          omega
        obtain ⟨hwfe2, hwfes2⟩ : wfVal e2 = true ∧ wfElems es = true := by
          simpa [wfElems, Bool.and_eq_true] using hwfes
        have ihv := ihV e (',' :: (serializeElems e2 es ++ ']' :: rest)) hwfe hlen'.1
          (headNotDigit_cons ',' _ (by decide))
        have ihe := ihE e2 es rest hwfe2 hwfes2 hlen'.2
        simp only [serializeElems, List.append_assoc, List.cons_append, parseElems]
        rw [ihv]
        simp [ihe]
    · intro k v fs rest hk hv hfs hlen
      cases fs with
      | nil =>
        have hlenV : (serializeVal v).length ≤ f := by
          simp only [serializeFields] at hlen
          simp [List.length_append] at hlen
          omega
        have ihv := ihV v ('}' :: rest) hv hlenV (headNotDigit_cons '}' rest (by decide))
        have hsb := parseStringBody_round k (':' :: (serializeVal v ++ '}' :: rest)) hk
        simp only [serializeFields, List.cons_append, List.append_assoc,
          List.singleton_append, List.nil_append, parseFields]
        rw [hsb]
        simp [ihv]
      | cons kv2 fs =>
        obtain ⟨k2, v2⟩ := kv2
        obtain ⟨hk2, hv2, hfs2⟩ :
            okStrB k2 = true ∧ wfVal v2 = true ∧ wfFields fs = true := by
          simpa [wfFields, Bool.and_eq_true, and_assoc] using hfs
        have hposF : 1 ≤ (serializeVal v).length := serializeVal_length_pos v
        have hlen' : (serializeVal v).length ≤ f ∧
            (serializeFields (k2, v2) fs).length < f := by
          simp only [serializeFields] at hlen
          simp [List.length_append] at hlen
          omega
        have ihv := ihV v
          (',' :: (serializeFields (k2, v2) fs ++ '}' :: rest)) hv hlen'.1
          (headNotDigit_cons ',' _ (by decide))
        have ihf := ihF k2 v2 fs rest hk2 hv2 hfs2 hlen'.2
        have hsb := parseStringBody_round k
          (':' :: (serializeVal v ++ ',' :: (serializeFields (k2, v2) fs ++ '}' :: rest))) hk
        simp only [serializeFields, List.cons_append, List.append_assoc,
          List.singleton_append, List.nil_append, parseFields]
        rw [hsb]
        simp [ihv, ihf]

/-- `json.loads` inverts the canonical serialization: parsing a
serialized well-formed value of the modelled fragment recovers it. -/
theorem parseJson_serializeVal (j : Json) (hwf : wfVal j = true) :
    parseJson (serializeVal j) = some j := by
  have h := (parse_serialize_round ((serializeVal j).length + 1)).1 j [] hwf
    (by omega) (by intro c hc; simp at hc)
  simp only [List.append_nil] at h
  simp [parseJson, h]

theorem lstrip_eq_self (s : List Char)
    (h : ∀ c, s.head? = some c → isSpaceChar c = false) : lstrip s = s := by
  cases s with
  | nil => rfl
  | cons a t => simp [lstrip, List.dropWhile_cons, h a rfl]

theorem rstrip_eq_self (s : List Char)
    (h : ∀ c, s.getLast? = some c → isSpaceChar c = false) : rstrip s = s := by
  have h2 : ∀ c, s.reverse.head? = some c → isSpaceChar c = false := by
    intro c hc
    rw [List.head?_reverse] at hc
    exact h c hc
  have hrev := lstrip_eq_self s.reverse h2
  simp only [lstrip] at hrev
  simp [rstrip, hrev]

theorem pyStrip_eq_self (s : List Char)
    (h1 : ∀ c, s.head? = some c → isSpaceChar c = false)
    (h2 : ∀ c, s.getLast? = some c → isSpaceChar c = false) : pyStrip s = s := by
  rw [pyStrip, lstrip_eq_self s h1, rstrip_eq_self s h2]

theorem lstrip_cons_space (c : Char) (cs : List Char) (h : isSpaceChar c = true) :
    lstrip (c :: cs) = lstrip cs := by
  simp [lstrip, List.dropWhile_cons, h]

theorem rstrip_append_space (y : List Char) (c : Char) (h : isSpaceChar c = true) :
    rstrip (y ++ [c]) = rstrip y := by
  simp [rstrip, List.reverse_append, List.dropWhile_cons, h]

/-- Stripping a brace-delimited text padded with a newline on either
side recovers the text. -/
theorem pyStrip_newline_pad (s : List Char)
    (hh : s.head? = some '{') (hl : s.getLast? = some '}') :
    pyStrip ('\n' :: (s ++ ['\n'])) = s := by
  have hne : s ≠ [] := by
    intro he
    rw [he] at hh
    simp at hh
  have hhead2 : ∀ c, (s ++ ['\n']).head? = some c → isSpaceChar c = false := by
    intro c hc
    rw [List.head?_append_of_ne_nil s hne, hh] at hc
    simp at hc
    subst hc
    decide
  rw [pyStrip, lstrip_cons_space '\n' _ (by decide)]
  rw [lstrip_eq_self _ hhead2]
  rw [rstrip_append_space s '\n' (by decide)]
  exact rstrip_eq_self s (by
    intro c hc
    rw [hl] at hc
    simp at hc
    subst hc
    decide)

theorem serializeVal_obj_shape (fs : List (List Char × Json)) :
    ∃ mid, serializeVal (.obj fs) = '{' :: (mid ++ ['}']) := by
  cases fs with
  | nil => exact ⟨[], by simp [serializeVal]⟩
  | cons f fs => exact ⟨serializeFields f fs, by simp [serializeVal]⟩

theorem brace_head (mid : List Char) : ('{' :: (mid ++ ['}'])).head? = some '{' := rfl

theorem brace_getLast (mid : List Char) :
    ('{' :: (mid ++ ['}'])).getLast? = some '}' := by
  rw [show '{' :: (mid ++ ['}']) = ('{' :: mid) ++ ['}'] from rfl]
  exact List.getLast?_concat _

theorem fenceJson_not_prefix_of_brace (t : List Char) :
    fenceJsonChars.isPrefixOf ('{' :: t) = false := by
  have hb : (backtick == '{') = false := by decide
  simp [fenceJsonChars, List.isPrefixOf, hb]

theorem fence_not_suffix_of_brace (mid : List Char) :
    fenceChars.isSuffixOf ('{' :: (mid ++ ['}'])) = false := by
  have hb : (backtick == '}') = false := by decide
  rw [show '{' :: (mid ++ ['}']) = ('{' :: mid) ++ ['}'] from rfl]
  simp [List.isSuffixOf, fenceChars, List.reverse_append, List.isPrefixOf, hb]

/-- A bare serialized object passes through the cleaning step of
`final_app.py` lines 46-51 unchanged. -/
theorem cleanResponse_bare (mid : List Char) :
    cleanResponse ('{' :: (mid ++ ['}'])) = '{' :: (mid ++ ['}'])  := by
  have hstrip := pyStrip_eq_self ('{' :: (mid ++ ['}']))
    (by
      intro c hc
      rw [brace_head] at hc
      simp at hc
      subst hc
      decide)
    (by
      intro c hc
      rw [brace_getLast] at hc
      simp at hc
      subst hc
      decide)
  simp [cleanResponse, hstrip, fenceJson_not_prefix_of_brace, fence_not_suffix_of_brace]

/-- An object wrapped in a tagged opening fence and a closing fence is
recovered by the cleaning step. -/
theorem cleanResponse_fenced (mid : List Char) :
    cleanResponse (fenceJsonChars ++ '\n' :: (('{' :: (mid ++ ['}'])) ++ '\n' :: fenceChars)) =
      '{' :: (mid ++ ['}']) := by
  set s := '{' :: (mid ++ ['}']) with hs
  set X := '\n' :: (s ++ '\n' :: fenceChars) with hX
  have hXeq : X = ('\n' :: (s ++ ['\n'])) ++ fenceChars := by simp [hX]
  have hhead : ∀ c, (fenceJsonChars ++ X).head? = some c → isSpaceChar c = false := by
    intro c hc
    rw [List.head?_append_of_ne_nil fenceJsonChars (by simp [fenceJsonChars])] at hc
    rw [show fenceJsonChars.head? = some backtick from rfl] at hc
    simp at hc
    subst hc
    decide
  have hlast : ∀ c, (fenceJsonChars ++ X).getLast? = some c → isSpaceChar c = false := by
    intro c hc
    rw [List.getLast?_append_of_ne_nil fenceJsonChars (by simp [hX])] at hc
    rw [hXeq, List.getLast?_append_of_ne_nil _ (by simp [fenceChars])] at hc
    rw [show fenceChars.getLast? = some backtick by decide] at hc
    simp at hc
    subst hc
    decide
  have hstrip : pyStrip (fenceJsonChars ++ X) = fenceJsonChars ++ X :=
    pyStrip_eq_self _ hhead hlast
  have hpre : fenceJsonChars.isPrefixOf (fenceJsonChars ++ X) = true := by simp
  have hdrop : (fenceJsonChars ++ X).drop 7 = X := List.drop_left' rfl
  have hsuf : fenceChars.isSuffixOf X = true :=
    List.isSuffixOf_iff_suffix.mpr ⟨'\n' :: (s ++ ['\n']), by simp [hX]⟩
  have htake : X.take (X.length - 3) = '\n' :: (s ++ ['\n']) := by
    rw [hXeq]
    rw [show (('\n' :: (s ++ ['\n'])) ++ fenceChars).length - 3 =
      ('\n' :: (s ++ ['\n'])).length from by simp [fenceChars]]
    exact List.take_left _ _
  have hpad : pyStrip ('\n' :: (s ++ ['\n'])) = s :=
    pyStrip_newline_pad s (brace_head mid) (brace_getLast mid)
  simp only [cleanResponse, hstrip, hpre, if_true, hdrop, hsuf, htake, hpad]

/-- An object preceded by a tagged opening fence with no closing fence is
still recovered by the cleaning step. -/
theorem cleanResponse_openFence (mid : List Char) :
    cleanResponse (fenceJsonChars ++ '\n' :: ('{' :: (mid ++ ['}']))) =
      '{' :: (mid ++ ['}']) := by
  set s := '{' :: (mid ++ ['}']) with hs
  have hhead : ∀ c, (fenceJsonChars ++ '\n' :: s).head? = some c → isSpaceChar c = false := by
    intro c hc
    rw [List.head?_append_of_ne_nil fenceJsonChars (by simp [fenceJsonChars])] at hc
    rw [show fenceJsonChars.head? = some backtick from rfl] at hc
    simp at hc
    subst hc
    decide
  have hlast : ∀ c, (fenceJsonChars ++ '\n' :: s).getLast? = some c → isSpaceChar c = false := by
    intro c hc
    rw [List.getLast?_append_of_ne_nil fenceJsonChars (by simp)] at hc
    rw [show ('\n' :: s) = ('\n' :: ('{' :: mid)) ++ ['}'] from by simp [hs]] at hc
    rw [List.getLast?_concat] at hc
    simp at hc
    subst hc
    decide
  have hstrip : pyStrip (fenceJsonChars ++ '\n' :: s) = fenceJsonChars ++ '\n' :: s :=
    pyStrip_eq_self _ hhead hlast
  have hpre : fenceJsonChars.isPrefixOf (fenceJsonChars ++ '\n' :: s) = true := by simp
  have hdrop : (fenceJsonChars ++ '\n' :: s).drop 7 = '\n' :: s := List.drop_left' rfl
  have hsuf : fenceChars.isSuffixOf ('\n' :: s) = false := by
    have hb : (backtick == '}') = false := by decide
    rw [show ('\n' :: s) = ('\n' :: ('{' :: mid)) ++ ['}'] from by simp [hs]]
    simp [List.isSuffixOf, fenceChars, List.reverse_append, List.isPrefixOf, hb]
  have hpad : pyStrip ('\n' :: s) = s := by
    rw [pyStrip, lstrip_cons_space '\n' s (by decide)]
    rw [lstrip_eq_self s (by
      intro c hc
      rw [hs, brace_head] at hc
      simp at hc
      subst hc
      decide)]
    exact rstrip_eq_self s (by
      intro c hc
      rw [hs, brace_getLast] at hc
      simp at hc
      subst hc
      decide)
  simp only [cleanResponse, hstrip, hpre, if_true, hdrop, hsuf, Bool.false_eq_true,
    if_false, hpad]

/-- An object followed by a closing fence with no opening fence is still
recovered by the cleaning step. -/
theorem cleanResponse_closeFence (mid : List Char) :
    cleanResponse (('{' :: (mid ++ ['}'])) ++ '\n' :: fenceChars) =
      '{' :: (mid ++ ['}']) := by
  set s := '{' :: (mid ++ ['}']) with hs
  have hDeq : s ++ '\n' :: fenceChars = (s ++ ['\n']) ++ fenceChars := by simp
  have hhead : ∀ c, (s ++ '\n' :: fenceChars).head? = some c → isSpaceChar c = false := by
    intro c hc
    rw [List.head?_append_of_ne_nil s (by simp [hs]), hs, brace_head] at hc
    simp at hc
    subst hc
    decide
  have hlast : ∀ c, (s ++ '\n' :: fenceChars).getLast? = some c → isSpaceChar c = false := by
    intro c hc
    rw [List.getLast?_append_of_ne_nil s (by simp)] at hc
    rw [show ('\n' :: fenceChars) = ['\n', backtick, backtick] ++ [backtick] from by
      simp [fenceChars]] at hc
    rw [List.getLast?_concat] at hc
    simp at hc
    subst hc
    decide
  have hstrip : pyStrip (s ++ '\n' :: fenceChars) = s ++ '\n' :: fenceChars :=
    pyStrip_eq_self _ hhead hlast
  have hpre : fenceJsonChars.isPrefixOf (s ++ '\n' :: fenceChars) = false := by
    rw [show s ++ '\n' :: fenceChars = '{' :: ((mid ++ ['}']) ++ '\n' :: fenceChars) from by
      simp [hs]]
    exact fenceJson_not_prefix_of_brace _
  have hsuf : fenceChars.isSuffixOf (s ++ '\n' :: fenceChars) = true :=
    List.isSuffixOf_iff_suffix.mpr ⟨s ++ ['\n'], by simp⟩
  have htake : (s ++ '\n' :: fenceChars).take ((s ++ '\n' :: fenceChars).length - 3) =
      s ++ ['\n'] := by
    rw [hDeq]
    rw [show ((s ++ ['\n']) ++ fenceChars).length - 3 = (s ++ ['\n']).length from by
      simp [fenceChars]]
    exact List.take_left _ _
  have hpad : pyStrip (s ++ ['\n']) = s := by
    rw [pyStrip]
    rw [lstrip_eq_self (s ++ ['\n']) (by
      intro c hc
      rw [List.head?_append_of_ne_nil s (by simp [hs]), hs, brace_head] at hc
      simp at hc
      subst hc
      decide)]
    rw [rstrip_append_space s '\n' (by decide)]
    exact rstrip_eq_self s (by
      intro c hc
      rw [hs, brace_getLast] at hc
      simp at hc
      subst hc
      decide)
  simp only [cleanResponse, hstrip, hpre, Bool.false_eq_true, if_false, hsuf, if_true,
    htake, hpad]

/-- `FEEDBACK_PROMPT` (`prompts.py` lines 2-13) up to the
`feedback_items` placeholder. -/
def FEEDBACK_PROMPT_PRE : List Char :=
  ("\nYou are an expert instructor coach. Given the following set of student feedback items for a course, do three things:\n\n1) Write a concise summary (2-3 sentences) capturing the main themes.\n2) Tag the overall sentiment as one of: positive, neutral, negative.\n3) Give 2–3 concrete, prioritized action recommendations the instructor can implement next week (each 6-12 words).\n\nReturn ONLY valid JSON without markdown code blocks. Use these exact keys: summary, sentiment, actions, example_quotes.\n\nInput feedback items:\n").toList

/-- `FEEDBACK_PROMPT` after the `feedback_items` placeholder. -/
def FEEDBACK_PROMPT_POST : List Char := "\n".toList

/-- `LECTURE_PROMPT` (`prompts.py` lines 15-34) up to the
`transcript_text` placeholder. -/
def LECTURE_PROMPT_PRE : List Char :=
  ("\nYou are an expert medical education reviewer and pedagogy coach.\n\nAnalyze the following lecture transcript and provide a structured critique covering:\n1. **Overall summary** (2–3 sentences).\n2. **Clarity & Structure**: strengths and weaknesses in explanation and flow.\n3. **Missing Key Content**: concepts or guidelines typically expected but absent.\n4. **Possible Factual Mistakes or Outdated Info**: flag cautiously, cite reasoning.\n5. **Pedagogical Suggestions**: concrete steps to improve student engagement/learning.\n\nReturn ONLY valid JSON without markdown code blocks or backticks. Use these exact keys:\n- \"summary\"\n- \"clarity_structure\"  \n- \"missing_content\"\n- \"factual_issues\"\n- \"pedagogical_suggestions\"\n\nTranscript:\n").toList

/-- `LECTURE_PROMPT` after the `transcript_text` placeholder. -/
def LECTURE_PROMPT_POST : List Char := "\n".toList

def summaryKey : List Char := "summary".toList

def sentimentKey : List Char := "sentiment".toList

def actionsKey : List Char := "actions".toList

def exampleQuotesKey : List Char := "example_quotes".toList

def errorKey : List Char := "error".toList

/-- The fixed fallback summary of `analyze_transcript`
(`final_app.py` line 103). -/
def errSummaryText : List Char := "Error parsing response".toList

/-- The message of the `json.loads` exception (`str(e)` at line 103),
abstracted to the fixed text CPython reports for a non-JSON document. -/
def jsonLoadsErrMsg : List Char := "Expecting value".toList

/-- Python `dict.get` on an object produced by `json.loads`: the value
of the key (a later duplicate key overwrites an earlier one, as in a
Python dict), `None` — modelled `Json.null` — when absent. -/
def dictGet (fs : List (List Char × Json)) (k : List Char) : Json :=
  match fs.reverse.find? (fun p => p.1 == k) with
  | some p => p.2
  | none => .null

/-- `parsed.get(key)` (`final_app.py` lines 61-64): a dict lookup when
`parsed` is an object, an uncaught `AttributeError` on any other value. -/
def pyGet : Json → List Char → Except (List Char) Json
  | .obj fs, k => .ok (dictGet fs k)
  | _, _ => .error "AttributeError".toList

/-- Does the parsed object carry the key at all (Python `key in parsed`)? -/
def hasKey (j : Json) (k : List Char) : Bool :=
  match j with
  | .obj fs => fs.any (fun p => p.1 == k)
  | _ => false

/-- One row of the uploaded feedback CSV (`instructor_id`, `course_id`,
`feedback_text` columns). -/
structure FeedbackRow where
  instructor_id : Int
  course_id : Int
  feedback_text : List Char
deriving DecidableEq

/-- The `(instructor_id, course_id)` grouping key of a row. -/
def rowKey (r : FeedbackRow) : Int × Int := (r.instructor_id, r.course_id)

/-- One record appended by `process_feedback` (`final_app.py`
lines 58-65). -/
structure FeedbackSummary where
  instructor_id : Int
  course_id : Int
  summary : Json
  sentiment : Json
  actions : Json
  examples : Json

/-- Lexicographic order on grouping keys, the order in which pandas
`groupby` (with its default `sort=True`) yields the groups. -/
def keyLe (a b : Int × Int) : Prop := a.1 < b.1 ∨ (a.1 = b.1 ∧ a.2 ≤ b.2)

instance : DecidableRel keyLe := fun a b =>
  inferInstanceAs (Decidable (a.1 < b.1 ∨ (a.1 = b.1 ∧ a.2 ≤ b.2)))

instance : IsTotal (Int × Int) keyLe := by
  constructor
  intro a b
  unfold keyLe
  omega

instance : IsTrans (Int × Int) keyLe := by
  constructor
  intro a b c
  unfold keyLe
  omega

def dedupFirstAux : Nat → List (Int × Int) → List (Int × Int)
  | 0, _ => []
  | _ + 1, [] => []
  | f + 1, k :: ks => k :: dedupFirstAux f (ks.filter (fun x => decide (x ≠ k)))

/-- Deduplication keeping the first occurrence of each key; the fuel,
one unit per element, always suffices because each step drops the
head and the filter never lengthens the tail. -/
def dedupFirst (l : List (Int × Int)) : List (Int × Int) :=
  dedupFirstAux l.length l

/-- The distinct grouping keys of the rows, in first-seen order. -/
def firstSeenKeys (df : List FeedbackRow) : List (Int × Int) :=
  dedupFirst (df.map rowKey)

/-- The distinct grouping keys in the ascending lexicographic order in
which pandas `groupby` iterates them. -/
def sortedKeys (df : List FeedbackRow) : List (Int × Int) :=
  List.insertionSort keyLe (firstSeenKeys df)

/-- `df.groupby(["instructor_id", "course_id"])` (`final_app.py`
line 38): the groups in ascending lexicographic key order (pandas
default `sort=True`), each group keeping its rows in original order. -/
def groupby (df : List FeedbackRow) : List ((Int × Int) × List FeedbackRow) :=
  (sortedKeys df).map (fun k => (k, df.filter (fun r => decide (rowKey r = k))))

/-- `"\n".join("- " + str(x) for x in g["feedback_text"].tolist())`
(`final_app.py` line 41); rows hold string cells, so `str(x)` is `x`. -/
def bulletItems (g : List FeedbackRow) : List Char :=
  List.intercalate ['\n'] (g.map (fun r => '-' :: ' ' :: r.feedback_text))

/-- `FEEDBACK_PROMPT.format(feedback_items=feedback_items[:2000])`
(`final_app.py` line 42). -/
def feedbackPromptOf (g : List FeedbackRow) : List Char :=
  FEEDBACK_PROMPT_PRE ++ (bulletItems g).take 2000 ++ FEEDBACK_PROMPT_POST

/-- `LECTURE_PROMPT.format(transcript_text=transcript_text[:5000])`
(`final_app.py` line 87). -/
def lecturePromptOf (transcript_text : List Char) : List Char :=
  LECTURE_PROMPT_PRE ++ transcript_text.take 5000 ++ LECTURE_PROMPT_POST

/-- The body of the `process_feedback` loop (`final_app.py`
lines 38-65) for one group: render the prompt, call the model (an
uncaught exception propagates), clean and parse the response — falling
back to `{"summary": raw}` when the parse raises — then build the
record by `parsed.get(...)` lookups, renaming `example_quotes` to
`examples`. -/
def processGroup (llm : List Char → Except (List Char) (List Char))
    (k : Int × Int) (g : List FeedbackRow) : Except (List Char) FeedbackSummary := do
  let raw ← llm (feedbackPromptOf g)
  let parsed : Json :=
    match parseJson (cleanResponse raw) with
    | some j => j
    | none => .obj [(summaryKey, .str raw)]
  let summary ← pyGet parsed summaryKey
  let sentiment ← pyGet parsed sentimentKey
  let actions ← pyGet parsed actionsKey
  let examples ← pyGet parsed exampleQuotesKey
  return { instructor_id := k.1, course_id := k.2, summary := summary,
           sentiment := sentiment, actions := actions, examples := examples }

/-- The `for` loop of `process_feedback`: groups are processed strictly
in sequence and any uncaught exception aborts the remaining groups. -/
def processGroups (llm : List Char → Except (List Char) (List Char)) :
    List ((Int × Int) × List FeedbackRow) → Except (List Char) (List FeedbackSummary)
  | [] => .ok []
  | (k, g) :: rest =>
    match processGroup llm k g with
    | .error e => .error e
    | .ok s =>
      match processGroups llm rest with
      | .error e => .error e
      | .ok l => .ok (s :: l)

/-- `process_feedback(df)` (`final_app.py` lines 30-74): group the rows
and run the per-group pipeline; the progress bar and status text are
UI-only and carry no data. -/
def process_feedback (llm : List Char → Except (List Char) (List Char))
    (df : List FeedbackRow) : Except (List Char) (List FeedbackSummary) :=
  processGroups llm (groupby df)

/-- `analyze_transcript(transcript_text)` (`final_app.py`
lines 85-104): render the lecture prompt, call the model, clean and
parse the response, and return the parsed value as is; on a parse
failure return `{"summary": "Error parsing response", "error": str(e)}`. -/
def analyze_transcript (llm : List Char → Except (List Char) (List Char))
    (transcript_text : List Char) : Except (List Char) Json := do
  let raw ← llm (lecturePromptOf transcript_text)
  match parseJson (cleanResponse raw) with
  | some j => return j
  | none =>
    return .obj [(summaryKey, .str errSummaryText), (errorKey, .str jsonLoadsErrMsg)]

/-- `" ".join([seg.text for seg in transcript_data if seg.text.strip()])`
(`final_app.py` line 79): captions whose text strips to empty are
dropped, the rest are joined with single spaces. -/
def joinedCaptions (segs : List (List Char)) : List Char :=
  List.intercalate [' '] (segs.filter (fun t => decide (pyStrip t ≠ [])))

/-- `fetch_youtube_transcript(video_id, max_chars=60000)` (`final_app.py`
lines 76-83), with the captioning service modelled by the list of
segment texts it returns. -/
def fetch_youtube_transcript (segs : List (List Char)) (maxChars : Nat) : List Char :=
  truncateText (joinedCaptions segs) maxChars

theorem processGroups_ok_forall₂ (llm : List Char → Except (List Char) (List Char))
    (gs : List ((Int × Int) × List FeedbackRow)) (l : List FeedbackSummary)
    (h : processGroups llm gs = .ok l) :
    List.Forall₂ (fun kg s => processGroup llm kg.1 kg.2 = .ok s) gs l := by
  induction gs generalizing l with
  | nil =>
    simp only [processGroups] at h
    cases h
    exact List.Forall₂.nil
  | cons kg rest ih =>
    obtain ⟨k, g⟩ := kg
    simp only [processGroups] at h
    cases hpg : processGroup llm k g with
    | error e => rw [hpg] at h; cases h
    | ok s =>
      rw [hpg] at h
      cases hrest : processGroups llm rest with
      | error e => rw [hrest] at h; cases h
      | ok l2 =>
        rw [hrest] at h
        cases h
        exact List.Forall₂.cons hpg (ih l2 hrest)

theorem processGroups_ok_of_all (llm : List Char → Except (List Char) (List Char))
    (gs : List ((Int × Int) × List FeedbackRow))
    (h : ∀ kg ∈ gs, ∃ s, processGroup llm kg.1 kg.2 = .ok s) :
    ∃ l, processGroups llm gs = .ok l := by
  induction gs with
  | nil => exact ⟨[], rfl⟩
  | cons kg rest ih =>
    obtain ⟨k, g⟩ := kg
    obtain ⟨s, hs⟩ := h (k, g) (List.mem_cons_self _ _)
    obtain ⟨l, hl⟩ := ih (fun kg hkg => h kg (List.mem_cons_of_mem _ hkg))
    exact ⟨s :: l, by simp only [processGroups, hs, hl]⟩

theorem groupby_keys_eq (df : List FeedbackRow) :
    (groupby df).map Prod.fst = sortedKeys df := by
  unfold groupby
  rw [List.map_map]
  have hcomp : (Prod.fst ∘ fun k : Int × Int =>
      (k, df.filter (fun r => decide (rowKey r = k)))) = id := funext (fun k => rfl)
  rw [hcomp, List.map_id]

theorem mem_dedupFirstAux (f : Nat) : ∀ l x, x ∈ dedupFirstAux f l → x ∈ l := by
  induction f with
  | zero => intro l x hx; simp [dedupFirstAux] at hx
  | succ f ih =>
    intro l x hx
    cases l with
    | nil => simp [dedupFirstAux] at hx
    | cons k ks =>
      rw [dedupFirstAux] at hx
      rcases List.mem_cons.mp hx with hx | hx
      · simp [hx]
      · exact List.mem_cons_of_mem _ (List.mem_of_mem_filter (ih _ x hx))

theorem dedupFirstAux_nodup (f : Nat) : ∀ l, (dedupFirstAux f l).Nodup := by
  induction f with
  | zero => intro l; simp [dedupFirstAux]
  | succ f ih =>
    intro l
    cases l with
    | nil => simp [dedupFirstAux]
    | cons k ks =>
      rw [dedupFirstAux]
      refine List.nodup_cons.mpr ⟨?_, ih _⟩
      intro hk
      have := mem_dedupFirstAux f _ k hk
      simp [List.mem_filter] at this

theorem dedupFirst_nodup (l : List (Int × Int)) : (dedupFirst l).Nodup :=
  dedupFirstAux_nodup l.length l

theorem sortedKeys_sorted (df : List FeedbackRow) :
    List.Sorted keyLe (sortedKeys df) :=
  List.sorted_insertionSort keyLe (firstSeenKeys df)

theorem sortedKeys_perm (df : List FeedbackRow) :
    (sortedKeys df).Perm (firstSeenKeys df) :=
  List.perm_insertionSort keyLe (firstSeenKeys df)

theorem sortedKeys_nodup (df : List FeedbackRow) : (sortedKeys df).Nodup :=
  (List.Perm.nodup_iff (sortedKeys_perm df)).mpr (dedupFirst_nodup _)

theorem processGroup_llm_error (llm : List Char → Except (List Char) (List Char))
    (k : Int × Int) (g : List FeedbackRow) (e : List Char)
    (h1 : llm (feedbackPromptOf g) = .error e) :
    processGroup llm k g = .error e := by
  simp only [processGroup, h1]
  rfl

theorem processGroup_parse_fail (llm : List Char → Except (List Char) (List Char))
    (k : Int × Int) (g : List FeedbackRow) (raw : List Char)
    (h1 : llm (feedbackPromptOf g) = .ok raw)
    (h2 : parseJson (cleanResponse raw) = none) :
    processGroup llm k g =
      .ok ⟨k.1, k.2, .str raw, .null, .null, .null⟩ := by
  simp only [processGroup, h1, Bind.bind, Except.bind, h2]
  rfl

theorem processGroup_parse_ok (llm : List Char → Except (List Char) (List Char))
    (k : Int × Int) (g : List FeedbackRow) (raw : List Char)
    (fs : List (List Char × Json))
    (h1 : llm (feedbackPromptOf g) = .ok raw)
    (h2 : parseJson (cleanResponse raw) = some (.obj fs)) :
    processGroup llm k g =
      .ok ⟨k.1, k.2, dictGet fs summaryKey, dictGet fs sentimentKey,
        dictGet fs actionsKey, dictGet fs exampleQuotesKey⟩ := by
  simp only [processGroup, h1, Bind.bind, Except.bind, h2]
  rfl

theorem analyze_transcript_parse_fail (llm : List Char → Except (List Char) (List Char))
    (t raw : List Char)
    (h1 : llm (lecturePromptOf t) = .ok raw)
    (h2 : parseJson (cleanResponse raw) = none) :
    analyze_transcript llm t =
      .ok (.obj [(summaryKey, .str errSummaryText), (errorKey, .str jsonLoadsErrMsg)]) := by
  simp only [analyze_transcript, h1, Bind.bind, Except.bind, h2]
  rfl

theorem analyze_transcript_parse_ok (llm : List Char → Except (List Char) (List Char))
    (t raw : List Char) (j : Json)
    (h1 : llm (lecturePromptOf t) = .ok raw)
    (h2 : parseJson (cleanResponse raw) = some j) :
    analyze_transcript llm t = .ok j := by
  simp only [analyze_transcript, h1, Bind.bind, Except.bind, h2]
  rfl

theorem processGroup_parse_nonobj (llm : List Char → Except (List Char) (List Char))
    (k : Int × Int) (g : List FeedbackRow) (raw : List Char) (j : Json)
    (h1 : llm (feedbackPromptOf g) = .ok raw)
    (h2 : parseJson (cleanResponse raw) = some j) (h3 : ∀ fs, j ≠ .obj fs) :
    processGroup llm k g = .error "AttributeError".toList := by
  simp only [processGroup, h1, Bind.bind, Except.bind, h2]
  cases j with
  | obj fs => exact absurd rfl (h3 fs)
  | null => rfl
  | bool b => rfl
  | num n => rfl
  | str s => rfl
  | arr es => rfl

/-- Whatever the model returns, a record successfully appended for a
group carries exactly the ids of that group's key. -/
theorem processGroup_ok_key (llm : List Char → Except (List Char) (List Char))
    (k : Int × Int) (g : List FeedbackRow) (s : FeedbackSummary)
    (h : processGroup llm k g = .ok s) :
    s.instructor_id = k.1 ∧ s.course_id = k.2 := by
  cases hr : llm (feedbackPromptOf g) with
  | error e =>
    rw [processGroup_llm_error llm k g e hr] at h
    cases h
  | ok raw =>
    cases hp : parseJson (cleanResponse raw) with
    | none =>
      rw [processGroup_parse_fail llm k g raw hr hp] at h
      injection h with h
      rw [← h]
      exact ⟨rfl, rfl⟩
    | some j =>
      cases j with
      | obj fs =>
        rw [processGroup_parse_ok llm k g raw fs hr hp] at h
        injection h with h
        rw [← h]
        exact ⟨rfl, rfl⟩
      | null =>
        rw [processGroup_parse_nonobj llm k g raw _ hr hp (by intro fs hf; cases hf)] at h
        cases h
      | bool b =>
        rw [processGroup_parse_nonobj llm k g raw _ hr hp (by intro fs hf; cases hf)] at h
        cases h
      | num n =>
        rw [processGroup_parse_nonobj llm k g raw _ hr hp (by intro fs hf; cases hf)] at h
        cases h
      | str t =>
        rw [processGroup_parse_nonobj llm k g raw _ hr hp (by intro fs hf; cases hf)] at h
        cases h
      | arr es =>
        rw [processGroup_parse_nonobj llm k g raw _ hr hp (by intro fs hf; cases hf)] at h
        cases h

theorem forall₂_map_keys (llm : List Char → Except (List Char) (List Char))
    (gs : List ((Int × Int) × List FeedbackRow)) (l : List FeedbackSummary)
    (hf : List.Forall₂ (fun kg s => processGroup llm kg.1 kg.2 = .ok s) gs l) :
    l.map (fun s => (s.instructor_id, s.course_id)) = gs.map Prod.fst := by
  induction hf with
  | nil => rfl
  | cons ha _ ih =>
    obtain ⟨h1, h2⟩ := processGroup_ok_key _ _ _ _ ha
    simp [ih, h1, h2]

theorem forall₂_zip_process (llm : List Char → Except (List Char) (List Char))
    (gs : List ((Int × Int) × List FeedbackRow)) (l : List FeedbackSummary)
    (hf : List.Forall₂ (fun kg s => processGroup llm kg.1 kg.2 = .ok s) gs l) :
    ∀ k g s, ((k, g), s) ∈ gs.zip l → processGroup llm k g = .ok s := by
  induction hf with
  | nil => intro k g s hmem; simp at hmem
  | cons ha _ ih =>
    intro k g s hmem
    rw [List.zip_cons_cons] at hmem
    rcases List.mem_cons.mp hmem with hmem | hmem
    · injection hmem with h1 h2
      subst h1
      subst h2
      exact ha
    · exact ih k g s hmem

theorem truncateText_of_le (t : List Char) (L : Nat) (h : t.length ≤ L) :
    truncateText t L = t := by
  simp [truncateText, h]

theorem truncateText_length_of_gt (t : List Char) (L : Nat) (h : L < t.length) :
    (truncateText t L).length = L + truncMarker.length := by
  have hnot : ¬ t.length ≤ L := by omega
  simp only [truncateText, hnot, if_false, List.length_append, List.length_take]
  rw [Nat.min_eq_left (Nat.le_of_lt h)]

theorem dictGet_of_hasKey_false (fs : List (List Char × Json)) (key : List Char)
    (h : hasKey (.obj fs) key = false) : dictGet fs key = .null := by
  simp only [hasKey, List.any_eq_true, not_exists] at h
  have hfind : fs.reverse.find? (fun p => p.1 == key) = none := by
    rw [List.find?_eq_none]
    intro x hx
    rw [List.mem_reverse] at hx
    intro hbeq
    rw [List.any_eq_false] at h
    exact absurd hbeq (by simpa using h x hx)
  simp [dictGet, hfind]

/-- The raw text the oracle of the counterexamples always returns: it is
not JSON, so every parse of it fails. -/
def junkText : List Char := "not json at all".toList

/-- An oracle whose completions never parse. -/
def llmJunk : List Char → Except (List Char) (List Char) := fun _ => .ok junkText

/-- The serialized object `{"summary":"s","extra":"x"}`. -/
def rawExtra : List Char :=
  ['{', '"', 's', 'u', 'm', 'm', 'a', 'r', 'y', '"', ':', '"', 's', '"', ',',
   '"', 'e', 'x', 't', 'r', 'a', '"', ':', '"', 'x', '"', '}']

/-- The object `json.loads` yields on `rawExtra`. -/
def fsExtra : List (List Char × Json) :=
  [(summaryKey, .str ['s']), (['e', 'x', 't', 'r', 'a'], .str ['x'])]

/-- An oracle that always answers with `rawExtra`. -/
def llmExtra : List Char → Except (List Char) (List Char) := fun _ => .ok rawExtra

def clarityKey : List Char := "clarity_structure".toList

def missingKey : List Char := "missing_content".toList

def factualKey : List Char := "factual_issues".toList

def pedagogicalKey : List Char := "pedagogical_suggestions".toList

/-- Rows of the two-group batches used by the concrete instances. -/
def dfTwoGroups : List FeedbackRow :=
  [⟨1, 10, "alpha".toList⟩, ⟨2, 20, "beta".toList⟩]

/-- Rows whose first-seen key order, (2,20) before (1,10), differs from
the sorted key order. -/
def dfReversed : List FeedbackRow :=
  [⟨2, 20, "late".toList⟩, ⟨1, 10, "great".toList⟩]

/-- The records `process_feedback` produces on `dfReversed` under
`llmJunk`. -/
def summariesReversed : List FeedbackSummary :=
  [⟨1, 10, .str junkText, .null, .null, .null⟩,
   ⟨2, 20, .str junkText, .null, .null, .null⟩]

/-- An oracle that raises on the first group of `dfTwoGroups` and
answers every other prompt. -/
def llmFailFirst : List Char → Except (List Char) (List Char) := fun p =>
  if p = feedbackPromptOf [⟨1, 10, "alpha".toList⟩] then .error "RateLimitError".toList
  else .ok junkText

/-- C1: for a batch whose completion calls all succeed and whose
responses each either fail to parse or parse to an object,
`process_feedback` returns exactly one record per distinct
`(instructor_id, course_id)` group, each record carrying its group's
key, and each group whose response fails the JSON parse getting the raw
response recorded as its summary.  (The original claim also let the
completion call itself fail; the counterexample shows such a failure is
uncaught and aborts the whole batch.) -/
theorem claim_C1_parse_failure_isolated (llm : List Char → Except (List Char) (List Char))
    (df : List FeedbackRow)
    (h : ∀ k g, (k, g) ∈ groupby df → ∃ r, llm (feedbackPromptOf g) = .ok r ∧
      (parseJson (cleanResponse r) = none ∨
        ∃ fs, parseJson (cleanResponse r) = some (.obj fs))) :
    ∃ l, process_feedback llm df = .ok l ∧
      l.length = (firstSeenKeys df).length ∧
      ∀ k g s, ((k, g), s) ∈ (groupby df).zip l →
        s.instructor_id = k.1 ∧ s.course_id = k.2 ∧
        ∀ r, llm (feedbackPromptOf g) = .ok r →
          parseJson (cleanResponse r) = none → s.summary = .str r := by
  obtain ⟨l, hl⟩ := processGroups_ok_of_all llm (groupby df) (by
    intro kg hkg
    obtain ⟨r, hr, hp⟩ := h kg.1 kg.2 (by simpa using hkg)
    rcases hp with hp | ⟨fs, hp⟩
    · exact ⟨_, processGroup_parse_fail llm kg.1 kg.2 r hr hp⟩
    · exact ⟨_, processGroup_parse_ok llm kg.1 kg.2 r fs hr hp⟩)
  have hf := processGroups_ok_forall₂ llm (groupby df) l hl
  refine ⟨l, hl, ?_, ?_⟩
  · have h1 := hf.length_eq
    have h2 : (groupby df).length = (sortedKeys df).length := by simp [groupby]
    have h3 : (sortedKeys df).length = (firstSeenKeys df).length :=
      (sortedKeys_perm df).length_eq
    omega
  · intro k g s hmem
    have hR : processGroup llm k g = .ok s := forall₂_zip_process llm _ _ hf k g s hmem
    obtain ⟨hk1, hk2⟩ := processGroup_ok_key llm k g s hR
    refine ⟨hk1, hk2, ?_⟩
    intro r hr hp
    rw [processGroup_parse_fail llm k g r hr hp] at hR
    injection hR with hR
    rw [← hR]

theorem claim_C1_parse_failure_isolated_witness :
    ∃ l, process_feedback llmJunk dfTwoGroups = .ok l ∧
      l.length = (firstSeenKeys dfTwoGroups).length ∧
      ∀ k g s, ((k, g), s) ∈ (groupby dfTwoGroups).zip l →
        s.instructor_id = k.1 ∧ s.course_id = k.2 ∧
        ∀ r, llmJunk (feedbackPromptOf g) = .ok r →
          parseJson (cleanResponse r) = none → s.summary = .str r :=
  claim_C1_parse_failure_isolated llmJunk dfTwoGroups
    (fun _ _ _ => ⟨junkText, rfl, Or.inl rfl⟩)

/-- C1 counterexample: on a batch of two groups where the completion
call of the first group raises, `process_feedback` does not return two
records — the exception escapes and aborts the whole batch. -/
theorem claim_C1_counterexample :
    (groupby dfTwoGroups).length = 2 ∧
    process_feedback llmFailFirst dfTwoGroups = .error "RateLimitError".toList :=
  ⟨by decide, rfl⟩

/-- C2: at the feedback extraction site, a response on which the JSON
parse fails is never rethrown: the group still yields a record whose
summary is the raw response text and whose other fields are all null.
(The original claim asserted this for both extraction sites; the
counterexample shows the lecture site substitutes a fixed error string
for the raw text instead.) -/
theorem claim_C2_parse_fallback (llm : List Char → Except (List Char) (List Char))
    (k : Int × Int) (g : List FeedbackRow) (raw : List Char)
    (h1 : llm (feedbackPromptOf g) = .ok raw)
    (h2 : parseJson (cleanResponse raw) = none) :
    processGroup llm k g = .ok ⟨k.1, k.2, .str raw, .null, .null, .null⟩ :=
  processGroup_parse_fail llm k g raw h1 h2

theorem claim_C2_parse_fallback_witness :
    processGroup llmJunk (1, 10) [⟨1, 10, "x".toList⟩] =
      .ok ⟨1, 10, .str junkText, .null, .null, .null⟩ :=
  claim_C2_parse_fallback llmJunk (1, 10) [⟨1, 10, "x".toList⟩] junkText rfl rfl

/-- C2 counterexample: at the lecture extraction site the fallback
summary is the fixed text `Error parsing response`, not the raw
response. -/
theorem claim_C2_counterexample :
    analyze_transcript llmJunk [] =
      .ok (.obj [(summaryKey, .str errSummaryText), (errorKey, .str jsonLoadsErrMsg)]) ∧
    errSummaryText ≠ junkText :=
  ⟨rfl, by decide⟩

/-- C5: the records of `process_feedback` appear in ascending
lexicographic `(instructor_id, course_id)` order — the order pandas
`groupby` with its default `sort=True` yields — not in first-seen
order; the key sequence is a sorted, duplicate-free permutation of the
first-seen key sequence. -/
theorem claim_C5_group_order (llm : List Char → Except (List Char) (List Char))
    (df : List FeedbackRow) (l : List FeedbackSummary)
    (h : process_feedback llm df = .ok l) :
    l.map (fun s => (s.instructor_id, s.course_id)) = sortedKeys df ∧
    List.Sorted keyLe (l.map (fun s => (s.instructor_id, s.course_id))) ∧
    (l.map (fun s => (s.instructor_id, s.course_id))).Perm (firstSeenKeys df) ∧
    (l.map (fun s => (s.instructor_id, s.course_id))).Nodup := by
  have hf := processGroups_ok_forall₂ llm (groupby df) l h
  have hmap : l.map (fun s => (s.instructor_id, s.course_id)) = sortedKeys df := by
    rw [forall₂_map_keys llm (groupby df) l hf, groupby_keys_eq]
  refine ⟨hmap, ?_, ?_, ?_⟩
  · rw [hmap]
    exact sortedKeys_sorted df
  · rw [hmap]
    exact sortedKeys_perm df
  · rw [hmap]
    exact sortedKeys_nodup df

theorem claim_C5_group_order_witness :
    summariesReversed.map (fun s => (s.instructor_id, s.course_id)) = sortedKeys dfReversed ∧
    List.Sorted keyLe (summariesReversed.map (fun s => (s.instructor_id, s.course_id))) ∧
    (summariesReversed.map (fun s => (s.instructor_id, s.course_id))).Perm
      (firstSeenKeys dfReversed) ∧
    (summariesReversed.map (fun s => (s.instructor_id, s.course_id))).Nodup :=
  claim_C5_group_order llmJunk dfReversed summariesReversed rfl

/-- C5 counterexample: with the rows keyed (2,20) then (1,10), the
first-seen key order is [(2,20), (1,10)], yet the records come out in
sorted order [(1,10), (2,20)]. -/
theorem claim_C5_counterexample :
    process_feedback llmJunk dfReversed = .ok summariesReversed ∧
    summariesReversed.map (fun s => (s.instructor_id, s.course_id)) = [(1, 10), (2, 20)] ∧
    firstSeenKeys dfReversed = [(2, 20), (1, 10)] ∧
    summariesReversed.map (fun s => (s.instructor_id, s.course_id)) ≠
      firstSeenKeys dfReversed :=
  ⟨rfl, by decide, by decide, by decide⟩

/-- C6: truncation returns a text within the budget unchanged and cuts
a longer text to exactly the first `L` characters plus the fixed
15-character marker, so the result length is `L + 15`; being a total
function of the embedding it never raises. -/
theorem claim_C6_truncation (t : List Char) (L : Nat) :
    (t.length ≤ L → truncateText t L = t) ∧
    (L < t.length → (truncateText t L).length = L + truncMarker.length) :=
  ⟨truncateText_of_le t L, truncateText_length_of_gt t L⟩

theorem claim_C6_truncation_witness :
    60000 < (List.replicate 70000 'a').length ∧
    (truncateText (List.replicate 70000 'a') 60000).length = 60000 + truncMarker.length :=
  ⟨by rw [List.length_replicate]; norm_num,
   (claim_C6_truncation (List.replicate 70000 'a') 60000).2
     (by rw [List.length_replicate]; norm_num)⟩

/-- C7: each template receives a pre-truncated substitution — the
feedback template the first 2000 characters of the bullet-joined
feedback list, the lecture template the first 5000 characters of the
transcript — and the substituted text is a prefix of the full text. -/
theorem claim_C7_prompt_budgets (g : List FeedbackRow) (t : List Char) :
    feedbackPromptOf g =
      FEEDBACK_PROMPT_PRE ++ (bulletItems g).take 2000 ++ FEEDBACK_PROMPT_POST ∧
    ((bulletItems g).take 2000).length ≤ 2000 ∧
    (bulletItems g).take 2000 <+: bulletItems g ∧
    lecturePromptOf t = LECTURE_PROMPT_PRE ++ t.take 5000 ++ LECTURE_PROMPT_POST ∧
    (t.take 5000).length ≤ 5000 ∧
    t.take 5000 <+: t := by
  refine ⟨rfl, ?_, List.take_prefix _ _, rfl, ?_, List.take_prefix _ _⟩
  · simp [List.length_take]
  · simp [List.length_take]

/-- The serialized object `{"a":true}`. -/
def objTextC3 : List Char := ['{', '"', 'a', '"', ':', 't', 'r', 'u', 'e', '}']

/-- C3: a serialized well-formed JSON object is recovered identically by
the clean-and-parse step whether presented bare, wrapped in a
json-tagged opening fence with a closing fence, with only the tagged
opening fence, or with only the closing fence.  (The original claim
also allowed an untagged opening marker; the counterexample shows the
code removes only the 7-character tagged marker, so an untagged fence
makes the parse fail.) -/
theorem claim_C3_fence_recovery (fs : List (List Char × Json))
    (hwf : wfVal (.obj fs) = true) :
    parseJson (cleanResponse (serializeVal (.obj fs))) = some (.obj fs) ∧
    parseJson (cleanResponse
      (fenceJsonChars ++ '\n' :: (serializeVal (.obj fs) ++ '\n' :: fenceChars))) =
      some (.obj fs) ∧
    parseJson (cleanResponse (fenceJsonChars ++ '\n' :: serializeVal (.obj fs))) =
      some (.obj fs) ∧
    parseJson (cleanResponse (serializeVal (.obj fs) ++ '\n' :: fenceChars)) =
      some (.obj fs) := by
  obtain ⟨mid, hmid⟩ := serializeVal_obj_shape fs
  have hround := parseJson_serializeVal (.obj fs) hwf
  rw [hmid]
  refine ⟨?_, ?_, ?_, ?_⟩
  · rw [cleanResponse_bare, ← hmid]
    exact hround
  · rw [cleanResponse_fenced, ← hmid]
    exact hround
  · rw [cleanResponse_openFence, ← hmid]
    exact hround
  · rw [cleanResponse_closeFence, ← hmid]
    exact hround

theorem claim_C3_fence_recovery_witness :
    wfVal (.obj [(['a'], Json.bool true)]) = true ∧
    (parseJson (cleanResponse (serializeVal (.obj [(['a'], Json.bool true)]))) =
      some (.obj [(['a'], Json.bool true)]) ∧
    parseJson (cleanResponse (fenceJsonChars ++ '\n' ::
        (serializeVal (.obj [(['a'], Json.bool true)]) ++ '\n' :: fenceChars))) =
      some (.obj [(['a'], Json.bool true)]) ∧
    parseJson (cleanResponse
        (fenceJsonChars ++ '\n' :: serializeVal (.obj [(['a'], Json.bool true)]))) =
      some (.obj [(['a'], Json.bool true)]) ∧
    parseJson (cleanResponse
        (serializeVal (.obj [(['a'], Json.bool true)]) ++ '\n' :: fenceChars)) =
      some (.obj [(['a'], Json.bool true)])) :=
  ⟨by simp [wfVal, wfFields, okStrB],
   claim_C3_fence_recovery [(['a'], Json.bool true)] (by simp [wfVal, wfFields, okStrB])⟩

/-- C3 counterexample: the same object behind an untagged opening fence
is not recovered — the cleaning step leaves the opening backticks in
place and the parse fails. -/
theorem claim_C3_counterexample :
    parseJson objTextC3 = some (.obj [(['a'], .bool true)]) ∧
    parseJson (cleanResponse (fenceChars ++ '\n' :: (objTextC3 ++ '\n' :: fenceChars))) =
      none :=
  ⟨rfl, rfl⟩

/-- C4: at the feedback extraction site the record is built by explicit
lookups of exactly the four expected keys — an unexpected key of the
parsed object is not propagated, a missing expected key maps to null,
and a key explicitly bound to null stays null.  (The original claim
asserted this for both sites; the counterexample shows the lecture site
returns the parsed mapping as is, extra keys included and missing keys
absent.) -/
theorem claim_C4_expected_keys (llm : List Char → Except (List Char) (List Char))
    (k : Int × Int) (g : List FeedbackRow) (raw : List Char)
    (fs : List (List Char × Json))
    (h1 : llm (feedbackPromptOf g) = .ok raw)
    (h2 : parseJson (cleanResponse raw) = some (.obj fs)) :
    processGroup llm k g = .ok ⟨k.1, k.2, dictGet fs summaryKey, dictGet fs sentimentKey,
      dictGet fs actionsKey, dictGet fs exampleQuotesKey⟩ ∧
    (∀ key, hasKey (.obj fs) key = false → dictGet fs key = .null) :=
  ⟨processGroup_parse_ok llm k g raw fs h1 h2,
   fun key hk => dictGet_of_hasKey_false fs key hk⟩

theorem claim_C4_expected_keys_witness :
    processGroup llmExtra (3, 4) [] = .ok ⟨3, 4, dictGet fsExtra summaryKey,
      dictGet fsExtra sentimentKey, dictGet fsExtra actionsKey,
      dictGet fsExtra exampleQuotesKey⟩ ∧
    (∀ key, hasKey (.obj fsExtra) key = false → dictGet fsExtra key = .null) :=
  claim_C4_expected_keys llmExtra (3, 4) [] rawExtra fsExtra rfl rfl

/-- C4 counterexample: the lecture site does no key projection — the
unexpected key `extra` is propagated and the expected
`clarity_structure` key is simply absent, not null. -/
theorem claim_C4_counterexample :
    analyze_transcript llmExtra [] = .ok (.obj fsExtra) ∧
    hasKey (.obj fsExtra) ['e', 'x', 't', 'r', 'a'] = true ∧
    hasKey (.obj fsExtra) clarityKey = false ∧
    hasKey (.obj fsExtra) missingKey = false :=
  ⟨rfl, by decide, by decide, by decide⟩

/-- C8: every record of a successful batch carries exactly the ids of
its group's key; its prompt was rendered from the group's feedback
texts bullet-prefixed with `- ` and joined by newlines (truncated to
the 2000-character budget); and when the group's response parses to an
object, every field of the record is the lookup of its expected key,
with the parsed `example_quotes` value landing in the record's
`examples` field. -/
theorem claim_C8_record_structure (llm : List Char → Except (List Char) (List Char))
    (df : List FeedbackRow) (l : List FeedbackSummary)
    (h : process_feedback llm df = .ok l) :
    ∀ k g s, ((k, g), s) ∈ (groupby df).zip l →
      s.instructor_id = k.1 ∧ s.course_id = k.2 ∧
      feedbackPromptOf g = FEEDBACK_PROMPT_PRE ++
        (List.intercalate ['\n'] (g.map (fun r => '-' :: ' ' :: r.feedback_text))).take 2000
        ++ FEEDBACK_PROMPT_POST ∧
      ∀ raw fs, llm (feedbackPromptOf g) = .ok raw →
        parseJson (cleanResponse raw) = some (.obj fs) →
        s.summary = dictGet fs summaryKey ∧ s.sentiment = dictGet fs sentimentKey ∧
        s.actions = dictGet fs actionsKey ∧ s.examples = dictGet fs exampleQuotesKey := by
  have hf := processGroups_ok_forall₂ llm (groupby df) l h
  intro k g s hmem
  have hR := forall₂_zip_process llm _ _ hf k g s hmem
  obtain ⟨h1, h2⟩ := processGroup_ok_key llm k g s hR
  refine ⟨h1, h2, rfl, ?_⟩
  intro raw fs hraw hp
  rw [processGroup_parse_ok llm k g raw fs hraw hp] at hR
  injection hR with hR
  rw [← hR]
  exact ⟨rfl, rfl, rfl, rfl⟩

/-- The single-row batch of the C8 witness. -/
def dfOne : List FeedbackRow := [⟨5, 6, "nice".toList⟩]

/-- The record `process_feedback` builds for the one group of `dfOne`
under `llmExtra`. -/
def sOne : FeedbackSummary := ⟨5, 6, .str ['s'], .null, .null, .null⟩

/-- The records `process_feedback` produces on `dfOne` under `llmExtra`. -/
def summariesOne : List FeedbackSummary := [sOne]

theorem claim_C8_record_structure_witness :
    sOne.instructor_id = 5 ∧ sOne.course_id = 6 ∧
    sOne.summary = dictGet fsExtra summaryKey ∧
    sOne.sentiment = dictGet fsExtra sentimentKey ∧
    sOne.actions = dictGet fsExtra actionsKey ∧
    sOne.examples = dictGet fsExtra exampleQuotesKey := by
  have h := claim_C8_record_structure llmExtra dfOne summariesOne rfl (5, 6) dfOne sOne
    (by
      rw [show (groupby dfOne).zip summariesOne = [(((5, 6), dfOne), sOne)] from rfl]
      exact List.mem_singleton.mpr rfl)
  obtain ⟨h1, h2, _, h4⟩ := h
  obtain ⟨hs, hsen, hact, hex⟩ := h4 rawExtra fsExtra rfl rfl
  exact ⟨h1, h2, hs, hsen, hact, hex⟩

/-- C9: the fetched transcript is the texts of the segments whose text
has any non-whitespace content, joined with single spaces, with the
fixed 60000-character cap (plus marker) applied inside the fetch and
therefore before the lecture template's own 5000-character cut.  (The
original claim said every segment is joined; the counterexample shows
whitespace-only segments are dropped.) -/
theorem claim_C9_transcript_join (segs : List (List Char)) :
    ((joinedCaptions segs).length ≤ 60000 →
      fetch_youtube_transcript segs 60000 = joinedCaptions segs) ∧
    (60000 < (joinedCaptions segs).length →
      (fetch_youtube_transcript segs 60000).length = 60000 + truncMarker.length) ∧
    lecturePromptOf (fetch_youtube_transcript segs 60000) =
      LECTURE_PROMPT_PRE ++ (fetch_youtube_transcript segs 60000).take 5000 ++
        LECTURE_PROMPT_POST :=
  ⟨fun h => truncateText_of_le _ _ h, fun h => truncateText_length_of_gt _ _ h, rfl⟩

/-- Two plain caption segments. -/
def segsSmall : List (List Char) := [['h', 'i'], ['y', 'o']]

theorem claim_C9_transcript_join_witness :
    (joinedCaptions segsSmall).length ≤ 60000 ∧
    fetch_youtube_transcript segsSmall 60000 = joinedCaptions segsSmall :=
  ⟨by decide, (claim_C9_transcript_join segsSmall).1 (by decide)⟩

/-- Caption segments with a whitespace-only middle segment. -/
def segsBlank : List (List Char) := [['a'], [' ', ' ', ' '], ['b']]

/-- C9 counterexample: the whitespace-only segment is dropped by the
fetch, so the result differs from the space-join of every segment. -/
theorem claim_C9_counterexample :
    fetch_youtube_transcript segsBlank 60000 = ['a', ' ', 'b'] ∧
    List.intercalate [' '] segsBlank = ['a', ' ', ' ', ' ', ' ', ' ', 'b'] ∧
    fetch_youtube_transcript segsBlank 60000 ≠ List.intercalate [' '] segsBlank :=
  ⟨rfl, rfl, by decide⟩

/-- C10: when the lecture-critique response fails to parse,
`analyze_transcript` returns the mapping whose `summary` is the fixed
text `Error parsing response` together with an `error` key — a key
outside the LectureCritique schema — holding the parse-exception
message, and no other LectureCritique field is present. -/
theorem claim_C10_lecture_error_record (llm : List Char → Except (List Char) (List Char))
    (t raw : List Char)
    (h1 : llm (lecturePromptOf t) = .ok raw)
    (h2 : parseJson (cleanResponse raw) = none) :
    analyze_transcript llm t =
      .ok (.obj [(summaryKey, .str errSummaryText), (errorKey, .str jsonLoadsErrMsg)]) ∧
    hasKey (.obj [(summaryKey, .str errSummaryText), (errorKey, .str jsonLoadsErrMsg)])
      errorKey = true ∧
    hasKey (.obj [(summaryKey, .str errSummaryText), (errorKey, .str jsonLoadsErrMsg)])
      summaryKey = true ∧
    hasKey (.obj [(summaryKey, .str errSummaryText), (errorKey, .str jsonLoadsErrMsg)])
      clarityKey = false ∧
    hasKey (.obj [(summaryKey, .str errSummaryText), (errorKey, .str jsonLoadsErrMsg)])
      missingKey = false ∧
    hasKey (.obj [(summaryKey, .str errSummaryText), (errorKey, .str jsonLoadsErrMsg)])
      factualKey = false ∧
    hasKey (.obj [(summaryKey, .str errSummaryText), (errorKey, .str jsonLoadsErrMsg)])
      pedagogicalKey = false :=
  ⟨analyze_transcript_parse_fail llm t raw h1 h2, by decide, by decide, by decide,
   by decide, by decide, by decide⟩

theorem claim_C10_lecture_error_record_witness :
    analyze_transcript llmJunk [] =
      .ok (.obj [(summaryKey, .str errSummaryText), (errorKey, .str jsonLoadsErrMsg)]) ∧
    hasKey (.obj [(summaryKey, .str errSummaryText), (errorKey, .str jsonLoadsErrMsg)])
      errorKey = true ∧
    hasKey (.obj [(summaryKey, .str errSummaryText), (errorKey, .str jsonLoadsErrMsg)])
      summaryKey = true ∧
    hasKey (.obj [(summaryKey, .str errSummaryText), (errorKey, .str jsonLoadsErrMsg)])
      clarityKey = false ∧
    hasKey (.obj [(summaryKey, .str errSummaryText), (errorKey, .str jsonLoadsErrMsg)])
      missingKey = false ∧
    hasKey (.obj [(summaryKey, .str errSummaryText), (errorKey, .str jsonLoadsErrMsg)])
      factualKey = false ∧
    hasKey (.obj [(summaryKey, .str errSummaryText), (errorKey, .str jsonLoadsErrMsg)])
      pedagogicalKey = false :=
  claim_C10_lecture_error_record llmJunk [] junkText rfl rfl

